import Mathlib

/-
  Verification development for the request/fallback layer of the
  WHYDIDITMOVE repository (src/services/geminiService.ts).

  The TypeScript source is shallowly embedded below:
  pure helpers become Lean functions, the sessionStorage-backed cache
  becomes explicit state passing over a `CacheState` record, and the
  async/try/catch control flow of the fallback loop becomes an
  `Except String` computation whose observable events (recorded error
  lines, models actually invoked) are returned explicitly.
-/

/-- Whitespace set used to model the JS `String.prototype.trim` and the
regex class `\s` for the inputs that occur here (space, tab, newline,
carriage return). -/
def isWS (c : Char) : Bool :=
  c == ' ' || c == '\t' || c == '\n' || c == '\r'

/-- Embeds the leading-whitespace removal performed by JS `trim` / `\s*`. -/
def trimLeft (l : List Char) : List Char := l.dropWhile isWS

/-- Embeds the trailing-whitespace removal performed by JS `trim` / `\s*`. -/
def trimRight (l : List Char) : List Char := (l.reverse.dropWhile isWS).reverse

/-- Embeds JS `text.trim()` on the character list of the text. -/
def jsTrim (l : List Char) : List Char := trimRight (trimLeft l)

/-- Prefix of `l` up to and including the last occurrence of `c`
(empty when `c` does not occur).  This models the greedy backtracking of
the regex fragment `[\s\S]*c`: the quantifier extends to the last `c`. -/
def takeUpToLast (c : Char) : List Char → List Char
  | [] => []
  | x :: xs => if c ∈ xs then x :: takeUpToLast c xs else if x = c then [x] else []

/-- Embeds the JS regex search `text.match(/(\x7b[\s\S]*\x7d|\[[\s\S]*\])/)`
from `cleanJson` (geminiService.ts line 9).  The engine tries start
positions left to right; at each position the first alternative (brace
object) is tried, then the second (bracket array); a greedy `[\s\S]*`
extends to the last closing delimiter in the remaining text. -/
def regexScan : List Char → Option (List Char)
  | [] => none
  | x :: rest =>
    if x = '{' ∧ '}' ∈ rest then some (x :: takeUpToLast '}' rest)
    else if x = '[' ∧ ']' ∈ rest then some (x :: takeUpToLast ']' rest)
    else regexScan rest

/-- Character list of the opening fence tag `"```json"`. -/
def tickJson : List Char := "```json".data

/-- Character list of the bare fence tag `"```"`. -/
def tick3 : List Char := "```".data

/-- Embeds one anchored replacement `.replace(/^TAG\s*/, "")`: when the
text starts with `TAG`, the tag and the following whitespace run are
removed, otherwise the text is unchanged. -/
def stripFenceTag (tag : List Char) (l : List Char) : List Char :=
  if tag.isPrefixOf l then trimLeft (l.drop tag.length) else l

/-- Embeds the anchored replacement `.replace(/\s*```$/, "")`: when the
text ends with three backticks, they and the maximal whitespace run
before them are removed, otherwise the text is unchanged. -/
def stripFenceEnd (l : List Char) : List Char :=
  if tick3.isSuffixOf l then trimRight (l.take (l.length - 3)) else l

/-- Embeds the fallback branch of `cleanJson` (geminiService.ts line 13):
`text.trim().replace(/^```json\s*/, "").replace(/^```\s*/, "").replace(/\s*```$/, "")`. -/
def fallbackClean (l : List Char) : List Char :=
  stripFenceEnd (stripFenceTag tick3 (stripFenceTag tickJson (jsTrim l)))

/-- Embeds `cleanJson` (geminiService.ts lines 7 to 14): return the first
greedy brace- or bracket-delimited match verbatim when one exists,
otherwise strip code fences and surrounding whitespace. -/
def cleanJson (text : String) : String :=
  match regexScan text.data with
  | some m => String.mk m
  | none => String.mk (fallbackClean text.data)

/-- JSON values, used to give meaning to `JSON.parse` on the outputs of
`cleanJson`.  Numbers are restricted to integers and string escapes to
the single-character ones; all inputs appearing in this development stay
inside this fragment. -/
inductive JVal where
  | null
  | bool (b : Bool)
  | num (n : Int)
  | str (s : String)
  | arr (elems : List JVal)
  | obj (fields : List (String × JVal))

/-- Single-character JSON string escapes. -/
def escChar (c : Char) : Option Char :=
  if c = '"' then some '"'
  else if c = '\\' then some '\\'
  else if c = '/' then some '/'
  else if c = 'n' then some '\n'
  else if c = 't' then some '\t'
  else if c = 'r' then some '\r'
  else if c = 'b' then some (Char.ofNat 8)
  else if c = 'f' then some (Char.ofNat 12)
  else none

/-- Parses the body of a JSON string after the opening quote, returning
the decoded string and the remaining input. -/
def parseStringBody (acc : List Char) : List Char → Option (String × List Char)
  | [] => none
  | '"' :: rest => some (String.mk acc.reverse, rest)
  | '\\' :: e :: rest =>
    match escChar e with
    | some ce => parseStringBody (ce :: acc) rest
    | none => none
  | ['\\'] => none
  | c :: rest => parseStringBody (c :: acc) rest

/-- Numeric value of a list of decimal digits. -/
def digitsVal (l : List Char) : Nat :=
  l.foldl (fun acc c => acc * 10 + (c.toNat - 48)) 0

/-- Parses an integer JSON number (optional minus sign, then digits). -/
def parseNumber (l : List Char) : Option (Int × List Char) :=
  match l with
  | '-' :: rest =>
    let ds := rest.takeWhile Char.isDigit
    if ds = [] then none else some (-(digitsVal ds : Int), rest.dropWhile Char.isDigit)
  | _ =>
    let ds := l.takeWhile Char.isDigit
    if ds = [] then none else some ((digitsVal ds : Int), l.dropWhile Char.isDigit)

mutual

/-- Recursive-descent JSON value parser, fuelled to make the mutual
recursion structural. -/
def parseValue : Nat → List Char → Option (JVal × List Char)
  | 0, _ => none
  | fuel + 1, s =>
    match trimLeft s with
    | [] => none
    | c :: rest =>
      if c = 'n' then
        if List.isPrefixOf ['u', 'l', 'l'] rest then some (JVal.null, rest.drop 3) else none
      else if c = 't' then
        if List.isPrefixOf ['r', 'u', 'e'] rest then some (JVal.bool true, rest.drop 3) else none
      else if c = 'f' then
        if List.isPrefixOf ['a', 'l', 's', 'e'] rest then some (JVal.bool false, rest.drop 4) else none
      else if c = '"' then
        match parseStringBody [] rest with
        | some (str, r) => some (JVal.str str, r)
        | none => none
      else if c = '[' then
        match parseItems fuel rest with
        | some (vs, r) => some (JVal.arr vs, r)
        | none => none
      else if c = '{' then
        match parseFields fuel rest with
        | some (fs, r) => some (JVal.obj fs, r)
        | none => none
      else if c = '-' ∨ c.isDigit then
        match parseNumber (c :: rest) with
        | some (n, r) => some (JVal.num n, r)
        | none => none
      else none

/-- Parses the items of a JSON array after the opening bracket. -/
def parseItems : Nat → List Char → Option (List JVal × List Char)
  | 0, _ => none
  | fuel + 1, s =>
    match trimLeft s with
    | ']' :: rest => some ([], rest)
    | s1 =>
      match parseValue fuel s1 with
      | none => none
      | some (v, r) =>
        match trimLeft r with
        | ',' :: r2 =>
          match parseItems fuel r2 with
          | some (vs, r3) => some (v :: vs, r3)
          | none => none
        | ']' :: r2 => some ([v], r2)
        | _ => none

/-- Parses the fields of a JSON object after the opening brace. -/
def parseFields : Nat → List Char → Option (List (String × JVal) × List Char)
  | 0, _ => none
  | fuel + 1, s =>
    match trimLeft s with
    | '}' :: rest => some ([], rest)
    | '"' :: rest =>
      match parseStringBody [] rest with
      | none => none
      | some (key, r) =>
        match trimLeft r with
        | ':' :: r2 =>
          match parseValue fuel r2 with
          | none => none
          | some (v, r3) =>
            match trimLeft r3 with
            | ',' :: r4 =>
              match parseFields fuel r4 with
              | some (fs, r5) => some ((key, v) :: fs, r5)
              | none => none
            | '}' :: r4 => some ([(key, v)], r4)
            | _ => none
        | _ => none
    | _ => none

end

/-- Embeds `JSON.parse` on a whole document: parse one value and require
that only whitespace remains; `none` models a thrown SyntaxError. -/
def parseJsonDoc (s : String) : Option JVal :=
  match parseValue (s.data.length + 1) s.data with
  | some (v, rest) => if trimLeft rest = [] then some v else none
  | none => none

/-- The hardcoded fallback candidate list `MODELS`
(geminiService.ts lines 48 to 60), in source order. -/
def MODELS : List String := [
  "gemini-flash-lite-latest",
  "gemini-2.5-flash-lite-preview-09-2025",
  "gemini-2.0-flash-lite-preview-02-05",
  "gemini-2.0-flash",
  "gemini-flash-latest",
  "gemini-pro-latest",
  "gemini-exp-1206",
  "gemini-3-flash-preview",
  "gemini-3-pro-preview",
  "gemini-1.5-flash",
  "gemini-1.5-pro"]

/-- Observable outcome of one run of the fallback loop: the returned or
thrown value, the `errors` array as accumulated by the loop, and the
list of models on which `generateFn` was actually invoked. -/
structure FallbackRun (α : Type) where
  result : Except String α
  errors : List String
  invoked : List String
deriving Repr

/-- The failure line pushed for one candidate:
backtick `Model ${model} failed: ${err.message}` (geminiService.ts line 67). -/
def modelFailLine (model : String) (msg : String) : String :=
  "Model " ++ model ++ " failed: " ++ msg

/-- The aggregate error thrown after exhaustion:
backtick `All models failed. Details:\n${errors.join('\n')}` (line 76). -/
def allFailedMessage (errors : List String) : String :=
  "All models failed. Details:\n" ++ String.intercalate "\n" errors

/-- Embeds the loop body of `generateWithFallback`
(geminiService.ts lines 61 to 77): try each candidate in order; on the
first success return its value; on failure push the formatted line and
continue; after exhaustion throw the aggregate error.  `errors` is the
accumulator array, and the models tried so far are recorded in
`invoked` so that non-invocation properties can be stated. -/
def runFallbackGo {α : Type} (f : String → Except String α) (errors : List String) :
    List String → FallbackRun α
  | [] => ⟨Except.error (allFailedMessage errors), errors, []⟩
  | m :: ms =>
    match f m with
    | Except.ok v => ⟨Except.ok v, errors, [m]⟩
    | Except.error e =>
      let rest := runFallbackGo f (errors ++ [modelFailLine m e]) ms
      ⟨rest.result, rest.errors, m :: rest.invoked⟩

/-- Embeds `generateWithFallback` (geminiService.ts lines 61 to 77),
specialised to the hardcoded `MODELS` list as in the source. -/
def generateWithFallback {α : Type} (f : String → Except String α) : Except String α :=
  (runFallbackGo f [] MODELS).result

/-- Embeds JS `haystack.includes(needle)`: substring containment. -/
def jsIncludes (needle : List Char) : List Char → Bool
  | [] => needle.isEmpty
  | x :: xs => needle.isPrefixOf (x :: xs) || jsIncludes needle xs

/-- The sentence appended to the system instruction for lite models
(geminiService.ts line 84). -/
def liteDirective : String :=
  "\n\nCRITICAL: Output strictly valid JSON only. Do not wrap in markdown. Do not include any text before or after."

/-- Request configuration produced by `getSmartConfig`; the
`tools: [\x7b googleSearch: \x7b\x7d \x7d]` entry is modelled by the boolean
`toolsGoogleSearch`, and absent fields by `none`. -/
structure SmartConfig (α : Type) where
  systemInstruction : String
  toolsGoogleSearch : Bool
  responseMimeType : Option String
  responseSchema : Option α

/-- Embeds `getSmartConfig` (geminiService.ts lines 79 to 95):
`model.includes('lite')` selects the lite branch, which amends the
instruction text and attaches no schema or mime type; otherwise the
schema and the `application/json` mime type are attached. -/
def getSmartConfig {α : Type} (model : String) (schema : α) (systemInstruction : String) :
    SmartConfig α :=
  let isLite := jsIncludes "lite".data model.data
  let baseConfig : SmartConfig α :=
    { systemInstruction :=
        if isLite then systemInstruction ++ liteDirective else systemInstruction,
      toolsGoogleSearch := true,
      responseMimeType := none,
      responseSchema := none }
  if isLite then baseConfig
  else { baseConfig with
          responseMimeType := some "application/json",
          responseSchema := some schema }

/-- Modelled from the spec: the `MarketStatus` type is declared in
`types.ts`, which is not among the provided sources; section 3 of the
spec describes it as a status in OPEN, CLOSED, UNKNOWN paired with a
free-text reason. -/
inductive MarketStatusKind where
  | OPEN
  | CLOSED
  | UNKNOWN
deriving DecidableEq, Repr

/-- Modelled from the spec: cached status payload, a `MarketStatusKind`
plus a free-text reason. -/
structure MarketStatus where
  status : MarketStatusKind
  reason : String
deriving DecidableEq, Repr

/-- String form of a status kind as it appears in the serialized payload. -/
def marketStatusKindString : MarketStatusKind → String
  | MarketStatusKind.OPEN => "OPEN"
  | MarketStatusKind.CLOSED => "CLOSED"
  | MarketStatusKind.UNKNOWN => "UNKNOWN"

/-- Partial inverse of `marketStatusKindString`. -/
def marketStatusKindOfString (s : String) : Option MarketStatusKind :=
  if s = "OPEN" then some MarketStatusKind.OPEN
  else if s = "CLOSED" then some MarketStatusKind.CLOSED
  else if s = "UNKNOWN" then some MarketStatusKind.UNKNOWN
  else none

/-- Models `JSON.stringify` restricted to `MarketStatus` payloads: an
injective serialization (the status word, a separator, the reason).
The exact wire text of `JSON.stringify` is irrelevant to every claim;
only the round trip with `jsonParseStatus` and its failure cases are. -/
def jsonStringifyStatus (m : MarketStatus) : String :=
  marketStatusKindString m.status ++ "\n" ++ m.reason

/-- Models `JSON.parse` on serialized `MarketStatus` payloads: the
partial inverse of `jsonStringifyStatus`; `none` models a thrown parse
error, which `checkMarketStatus` catches and treats as a cache miss. -/
def jsonParseStatus (s : String) : Option MarketStatus :=
  let pre := s.data.takeWhile (fun c => !(c == '\n'))
  let post := s.data.dropWhile (fun c => !(c == '\n'))
  match post with
  | [] => none
  | _ :: rest =>
    match marketStatusKindOfString (String.mk pre) with
    | some k => some ⟨k, String.mk rest⟩
    | none => none

/-- `CACHE_DURATION = 30 * 60 * 1000` (geminiService.ts line 19),
milliseconds. -/
def CACHE_DURATION : Nat := 30 * 60 * 1000

/-- The two sessionStorage entries used by `checkMarketStatus`:
`status` models the value under key `wdim_market_status_cache` and
`time` the value under key `wdim_market_status_time`; `none` models an
absent key. -/
structure CacheState where
  status : Option String
  time : Option String
deriving DecidableEq, Repr

/-- Models JS `parseInt` on the nonnegative decimal timestamps stored by
the code (value of leading digits; `none` models NaN). -/
def jsParseInt (s : String) : Option Nat :=
  let ds := s.data.takeWhile Char.isDigit
  if ds = [] then none else some (digitsVal ds)

/-- Embeds the cache-freshness test of `checkMarketStatus`
(geminiService.ts lines 98 to 108): both entries must be present, the
timestamp must parse, `now - t` must be below `CACHE_DURATION`, and the
payload must deserialize; any failure (including a caught parse error)
yields `none`, i.e. a miss. -/
def cacheLookup (st : CacheState) (now : Nat) : Option MarketStatus :=
  match st.status, st.time with
  | some cs, some ct =>
    match jsParseInt ct with
    | some t =>
      if now - t < CACHE_DURATION then
        match jsonParseStatus cs with
        | some m => some m
        | none => none
      else none
    | none => none
  | _, _ => none

/-- Embeds `checkMarketStatus` (geminiService.ts lines 97 to 132).
`Date.now()` is called exactly once, at entry (line 100); its value is
the parameter `now`, used both for the freshness comparison and as the
timestamp stored on a miss (line 129).  The network request builder
passed to `generateWithFallback` is abstracted as `genFn`.  The third
component counts the fallback requests issued (0 on a hit, 1 on a
miss); the second is the cache state after the call. -/
def checkMarketStatus (genFn : String → Except String MarketStatus) (now : Nat)
    (st : CacheState) : Except String MarketStatus × CacheState × Nat :=
  match cacheLookup st now with
  | some m => (Except.ok m, st, 0)
  | none =>
    match generateWithFallback genFn with
    | Except.error e => (Except.error e, st, 1)
    | Except.ok result =>
      (Except.ok result, ⟨some (jsonStringifyStatus result), some (toString now)⟩, 1)

/-- Message of the SyntaxError thrown by `JSON.parse` on unparseable
text (the exact engine-dependent wording is irrelevant; only its
identity matters). -/
def jsonSyntaxErrorMessage : String := "Unexpected token in JSON"

/-- Message of the ReferenceError thrown when the unbound identifier
`schema` is evaluated (geminiService.ts line 148). -/
def schemaRefErrorMessage : String := "schema is not defined"

/-- Embeds the evaluation of the config argument
`getSmartConfig(model, schema, EXPLAINER_SYSTEM_INSTRUCTION)` at
geminiService.ts line 148, inside the callback of `fetchYesterdayPulse`.
The identifier `schema` is unbound at that point: the only top-level
schema constant is `stockExplanationSchema` (line 154, declared after
this function), and every `schema` local belongs to another function.
Evaluating the call arguments therefore throws a ReferenceError before
`getSmartConfig` or the request can run. -/
def pulseConfig (_model : String) : Except String (SmartConfig Unit) :=
  Except.error schemaRefErrorMessage

/-- Embeds the per-candidate callback of `fetchYesterdayPulse`
(geminiService.ts lines 144 to 151) in evaluation order: build the
request config, which throws at the unbound `schema` (line 148), then
await the response text (`responses` abstracts the network call), then
`JSON.parse(cleanJson(text))`.  Because the first step always throws,
the request and the parse are unreachable in this callback. -/
def pulseAttempt (responses : String → Except String String) (model : String) :
    Except String JVal :=
  match pulseConfig model with
  | Except.error e => Except.error e
  | Except.ok _ =>
    match responses model with
    | Except.error e => Except.error e
    | Except.ok text =>
      match parseJsonDoc (cleanJson text) with
      | some v => Except.ok v
      | none => Except.error jsonSyntaxErrorMessage

/-- Embeds `fetchYesterdayPulse` (geminiService.ts lines 134 to 152):
the callback, config evaluation and parse included, runs inside
`generateWithFallback`. -/
def fetchYesterdayPulse (responses : String → Except String String) : Except String JVal :=
  generateWithFallback (pulseAttempt responses)

/-- Embeds the per-candidate callback of `fetchDiscoverySuggestions`
(geminiService.ts lines 284 to 291).  Here `schema` is the local
constant bound at line 260, so the request is issued (`responses`
abstracts the network call) and the response text is parsed with
`JSON.parse(cleanJson(text))`; a parse failure throws inside the
callback, within the try of the fallback loop. -/
def discoveryAttempt (responses : String → Except String String) (model : String) :
    Except String JVal :=
  match responses model with
  | Except.error e => Except.error e
  | Except.ok text =>
    match parseJsonDoc (cleanJson text) with
    | some v => Except.ok v
    | none => Except.error jsonSyntaxErrorMessage

/-- Embeds `fetchDiscoverySuggestions` (geminiService.ts lines 255 to
292), the result restricted to the parsed JSON value. -/
def fetchDiscoverySuggestions (responses : String → Except String String) :
    Except String JVal :=
  generateWithFallback (discoveryAttempt responses)

/-
  General lemmas about the fallback loop.
-/

/-- The loop returns the first successful candidate and invokes nothing
after it, for any accumulator contents. -/
theorem runFallbackGo_ok_of_first {α : Type} (f : String → Except String α) :
    ∀ (ms : List String) (n : Nat) (hn : n < ms.length) (errors : List String) (v : α),
      f (ms.get ⟨n, hn⟩) = Except.ok v →
      (∀ i (hi : i < n), ∃ e, f (ms.get ⟨i, Nat.lt_trans hi hn⟩) = Except.error e) →
      (runFallbackGo f errors ms).result = Except.ok v ∧
        (runFallbackGo f errors ms).invoked = ms.take (n + 1)
  | [], n, hn, _, _, _, _ => absurd hn (Nat.not_lt_zero n)
  | m :: ms, 0, _, errors, v, hs, _ => by
    simp only [List.get] at hs
    simp [runFallbackGo, hs]
  | m :: ms, n + 1, hn, errors, v, hs, hb => by
    obtain ⟨e, he⟩ := hb 0 (Nat.succ_pos n)
    simp only [List.get] at he hs
    have ih := runFallbackGo_ok_of_first f ms n (Nat.lt_of_succ_lt_succ hn)
      (errors ++ [modelFailLine m e]) v hs
      (fun i hi => hb (i + 1) (Nat.succ_lt_succ hi))
    simp only [runFallbackGo, he]
    exact ⟨ih.1, by simp [ih.2]⟩

/-- The loop with a first success at position `n`: full description of
the run, including the recorded error lines. -/
theorem runFallbackGo_ok_full {α : Type} (f : String → Except String α) (msg : String → String) :
    ∀ (ms : List String) (n : Nat) (hn : n < ms.length) (errors : List String) (v : α),
      f (ms.get ⟨n, hn⟩) = Except.ok v →
      (∀ i (hi : i < n),
        f (ms.get ⟨i, Nat.lt_trans hi hn⟩) =
          Except.error (msg (ms.get ⟨i, Nat.lt_trans hi hn⟩))) →
      runFallbackGo f errors ms =
        ⟨Except.ok v, errors ++ (ms.take n).map (fun m => modelFailLine m (msg m)),
          ms.take (n + 1)⟩
  | [], n, hn, _, _, _, _ => absurd hn (Nat.not_lt_zero n)
  | m :: ms, 0, _, errors, v, hs, _ => by
    simp only [List.get] at hs
    simp [runFallbackGo, hs]
  | m :: ms, n + 1, hn, errors, v, hs, hb => by
    have he := hb 0 (Nat.succ_pos n)
    simp only [List.get] at he hs
    have ih := runFallbackGo_ok_full f msg ms n (Nat.lt_of_succ_lt_succ hn)
      (errors ++ [modelFailLine m (msg m)]) v hs
      (fun i hi => hb (i + 1) (Nat.succ_lt_succ hi))
    simp [runFallbackGo, he, ih]

/-- The loop when every candidate fails: full description of the run. -/
theorem runFallbackGo_allfail {α : Type} (f : String → Except String α) (msg : String → String) :
    ∀ (ms : List String) (errors : List String),
      (∀ m ∈ ms, f m = Except.error (msg m)) →
      runFallbackGo f errors ms =
        ⟨Except.error (allFailedMessage (errors ++ ms.map (fun m => modelFailLine m (msg m)))),
          errors ++ ms.map (fun m => modelFailLine m (msg m)), ms⟩
  | [], errors, _ => by simp [runFallbackGo]
  | m :: ms, errors, hf => by
    have hm := hf m (List.mem_cons_self m ms)
    have ih := runFallbackGo_allfail f msg ms (errors ++ [modelFailLine m (msg m)])
      (fun x hx => hf x (List.mem_cons_of_mem m hx))
    simp [runFallbackGo, hm, ih]

/-- Cache-miss path of `checkMarketStatus` with a successful fetch: the
result is returned and both entries are overwritten, the stored
timestamp being the entry-time clock value. -/
theorem checkMarketStatus_miss_ok (genFn : String → Except String MarketStatus)
    (now : Nat) (st : CacheState) (r : MarketStatus)
    (hmiss : cacheLookup st now = none)
    (hok : generateWithFallback genFn = Except.ok r) :
    checkMarketStatus genFn now st =
      (Except.ok r, ⟨some (jsonStringifyStatus r), some (toString now)⟩, 1) := by
  simp [checkMarketStatus, hmiss, hok]

/-- C1.  For every non-empty candidate list and every request-building
function, if the candidate at position `n` succeeds and all candidates
before it fail, the fallback loop returns that candidate result, and the
request-building function is invoked exactly on the first `n + 1`
candidates, hence never on any candidate after position `n`.
(`generateWithFallback` is this loop run on `MODELS` with an empty
accumulator.) -/
theorem claim_C1_fallback_first_success {α : Type} (f : String → Except String α)
    (ms : List String) (n : Nat) (hn : n < ms.length) (v : α)
    (hs : f (ms.get ⟨n, hn⟩) = Except.ok v)
    (hb : ∀ i (hi : i < n), ∃ e, f (ms.get ⟨i, Nat.lt_trans hi hn⟩) = Except.error e) :
    (runFallbackGo f [] ms).result = Except.ok v ∧
      (runFallbackGo f [] ms).invoked = ms.take (n + 1) :=
  runFallbackGo_ok_of_first f ms n hn [] v hs hb

/-- Witness for C1: with candidates A, B, C where only B succeeds, the
loop returns the B result and invokes only A and B. -/
theorem claim_C1_witness :
    (runFallbackGo (fun m => if m = "B" then Except.ok 7 else Except.error "x")
        [] ["A", "B", "C"]).result = Except.ok 7 ∧
      (runFallbackGo (fun m => if m = "B" then Except.ok 7 else Except.error "x")
        [] ["A", "B", "C"]).invoked = ["A", "B"] := by
  have h := claim_C1_fallback_first_success
    (fun m => if m = "B" then Except.ok (7 : Nat) else Except.error "x")
    ["A", "B", "C"] 1 (by decide) 7 rfl
    (fun i hi => by interval_cases i; exact ⟨"x", rfl⟩)
  exact ⟨h.1, h.2⟩

/-- C2.  If the request-building function fails for every candidate, the
thrown aggregate error message contains exactly one `modelFailLine` per
candidate, in candidate-list order, newline-separated, wrapped in the
exhaustion text; concretely, on candidates A and B the message is
exactly the wrapped `Model A failed: msgA` newline `Model B failed: msgB`. -/
theorem claim_C2_aggregate_error {α : Type} (f : String → Except String α)
    (msg : String → String) (g : String → Except String α) (msgA msgB : String)
    (hf : ∀ m ∈ MODELS, f m = Except.error (msg m))
    (hgA : g "A" = Except.error msgA) (hgB : g "B" = Except.error msgB) :
    generateWithFallback f =
      Except.error (allFailedMessage (MODELS.map (fun m => modelFailLine m (msg m)))) ∧
    (runFallbackGo g [] ["A", "B"]).result =
      Except.error ("All models failed. Details:\n" ++
        ("Model A failed: " ++ msgA ++ "\n" ++ ("Model B failed: " ++ msgB))) := by
  constructor
  · show (runFallbackGo f [] MODELS).result = _
    rw [runFallbackGo_allfail f msg MODELS [] hf]
    simp
  · have hg : ∀ m ∈ ["A", "B"], g m =
        Except.error (if m = "A" then msgA else msgB) := by
      intro m hm
      simp only [List.mem_cons, List.mem_singleton, List.not_mem_nil, or_false] at hm
      rcases hm with rfl | rfl
      · rw [if_pos rfl]; exact hgA
      · rw [if_neg (by decide)]; exact hgB
    rw [runFallbackGo_allfail g (fun m => if m = "A" then msgA else msgB) ["A", "B"] [] hg]
    simp [allFailedMessage, modelFailLine, String.intercalate, String.intercalate.go]

/-- Witness for C2: all eleven models fail with message `q`; candidates
A and B fail with `rate limited` and `invalid arg`. -/
theorem claim_C2_witness :
    generateWithFallback (fun _ => (Except.error "q" : Except String Nat)) =
      Except.error (allFailedMessage (MODELS.map (fun m => modelFailLine m "q"))) ∧
    (runFallbackGo (fun m => if m = "A" then (Except.error "rate limited" : Except String Nat)
        else Except.error "invalid arg") [] ["A", "B"]).result =
      Except.error ("All models failed. Details:\n" ++
        ("Model A failed: " ++ "rate limited" ++ "\n" ++
          ("Model B failed: " ++ "invalid arg"))) := by
  have h := claim_C2_aggregate_error (α := Nat) (fun _ => Except.error "q") (fun _ => "q")
    (fun m => if m = "A" then Except.error "rate limited" else Except.error "invalid arg")
    "rate limited" "invalid arg" (fun m _ => rfl) rfl rfl
  exact h

/-- C7, counterexample to the claim as stated: when a candidate named
`gemini-2.0-flash` fails with message `boom`, the loop records the line
`Model gemini-2.0-flash failed: boom`, which is not the bare-identifier
format `gemini-2.0-flash: boom`. -/
theorem claim_C7_counterexample :
    (runFallbackGo (fun _ => (Except.error "boom" : Except String Nat))
        [] ["gemini-2.0-flash"]).errors = ["Model gemini-2.0-flash failed: boom"] ∧
      "Model gemini-2.0-flash failed: boom" ≠ "gemini-2.0-flash: boom" := by
  exact ⟨rfl, by decide⟩

/-- C7, amended.  For every candidate whose request fails, the loop
records a failure line formatted exactly as
`Model <model> failed: <error message>` before proceeding: with a first
success at position `n` the recorded lines are those of the first `n`
candidates, in order, and with no success those of every candidate. -/
theorem claim_C7_failure_line_format {α : Type} (f : String → Except String α)
    (msg : String → String) (ms : List String) :
    (∀ (n : Nat) (hn : n < ms.length) (v : α),
      f (ms.get ⟨n, hn⟩) = Except.ok v →
      (∀ i (hi : i < n),
        f (ms.get ⟨i, Nat.lt_trans hi hn⟩) =
          Except.error (msg (ms.get ⟨i, Nat.lt_trans hi hn⟩))) →
      (runFallbackGo f [] ms).errors =
        (ms.take n).map (fun m => "Model " ++ m ++ " failed: " ++ msg m)) ∧
    ((∀ m ∈ ms, f m = Except.error (msg m)) →
      (runFallbackGo f [] ms).errors =
        ms.map (fun m => "Model " ++ m ++ " failed: " ++ msg m)) := by
  constructor
  · intro n hn v hs hb
    rw [runFallbackGo_ok_full f msg ms n hn [] v hs hb]
    simp [modelFailLine]
  · intro hf
    rw [runFallbackGo_allfail f msg ms [] hf]
    simp [modelFailLine]

/-- Witness for C7 amended: candidate A fails with `boom`, candidate B
succeeds; the recorded lines are exactly the A line. -/
theorem claim_C7_witness :
    (runFallbackGo (fun m => if m = "B" then Except.ok 5 else Except.error "boom")
        [] ["A", "B"]).errors = ["Model A failed: boom"] := by
  have h := (claim_C7_failure_line_format
    (fun m => if m = "B" then Except.ok (5 : Nat) else Except.error "boom")
    (fun _ => "boom") ["A", "B"]).1 1 (by decide) 5 rfl
    (fun i hi => by interval_cases i; rfl)
  exact h

/-- C5, counterexample to the claim as stated: response text that fails
to parse never produces an uncaught JSON-parse error.  In
`fetchYesterdayPulse` the parse never even runs, since each attempt
throws the ReferenceError of the unbound `schema` before the request,
and the caller receives the aggregate exhaustion error with one
`schema is not defined` line per candidate; in the realizable use case
`fetchDiscoverySuggestions`, with every model returning unparseable
text, the caller likewise receives the aggregate exhaustion error with
model-attributed parse-error lines, not a bare parse error. -/
theorem claim_C5_counterexample :
    fetchYesterdayPulse (fun _ => Except.ok "not json") =
      Except.error (allFailedMessage
        (MODELS.map (fun m => modelFailLine m schemaRefErrorMessage))) ∧
    pulseAttempt (fun _ => Except.ok "not json") "gemini-2.0-flash" =
      Except.error schemaRefErrorMessage ∧
    schemaRefErrorMessage ≠ jsonSyntaxErrorMessage ∧
    fetchDiscoverySuggestions (fun _ => Except.ok "not json") =
      Except.error (allFailedMessage
        (MODELS.map (fun m => modelFailLine m jsonSyntaxErrorMessage))) ∧
    allFailedMessage (MODELS.map (fun m => modelFailLine m jsonSyntaxErrorMessage)) ≠
      jsonSyntaxErrorMessage :=
  ⟨rfl, rfl, by decide, rfl, by decide⟩

/-- C5, amended.  No JSON-parse failure can occur in
`fetchYesterdayPulse`: every candidate attempt throws the ReferenceError
of the unbound `schema` (line 148) before any request, so for every
response oracle the caller receives the aggregate exhaustion error with
one `schema is not defined` line per candidate.  In a use-case function
whose callback is realizable, `fetchDiscoverySuggestions`, a response
text that fails to parse is treated as that candidate failure: the
parse error is caught by the loop, recorded with model attribution, and
the next candidate is tried; the caller sees the parsed value of the
first candidate whose text parses, and sees a parse failure only
through the aggregate exhaustion error when every candidate fails. -/
theorem claim_C5_parse_failure_is_candidate_failure
    (responses : String → Except String String) :
    fetchYesterdayPulse responses =
      Except.error (allFailedMessage
        (MODELS.map (fun m => modelFailLine m schemaRefErrorMessage))) ∧
    (∀ (n : Nat) (hn : n < MODELS.length) (v : JVal) (t : String),
      (∀ i (hi : i < n), ∃ ti,
        responses (MODELS.get ⟨i, Nat.lt_trans hi hn⟩) = Except.ok ti ∧
          parseJsonDoc (cleanJson ti) = none) →
      responses (MODELS.get ⟨n, hn⟩) = Except.ok t →
      parseJsonDoc (cleanJson t) = some v →
      fetchDiscoverySuggestions responses = Except.ok v) ∧
    ((∀ m ∈ MODELS, ∃ tm, responses m = Except.ok tm ∧
        parseJsonDoc (cleanJson tm) = none) →
      fetchDiscoverySuggestions responses = Except.error (allFailedMessage
        (MODELS.map (fun m => modelFailLine m jsonSyntaxErrorMessage)))) := by
  refine ⟨?_, ?_, ?_⟩
  · show (runFallbackGo (pulseAttempt responses) [] MODELS).result = _
    rw [runFallbackGo_allfail (pulseAttempt responses)
      (fun _ => schemaRefErrorMessage) MODELS [] (fun m _ => rfl)]
    simp
  · intro n hn v t hb hs hp
    show (runFallbackGo (discoveryAttempt responses) [] MODELS).result = _
    have hs2 : discoveryAttempt responses (MODELS.get ⟨n, hn⟩) = Except.ok v := by
      simp only [discoveryAttempt, hs, hp]
    have hb2 : ∀ i (hi : i < n), ∃ e,
        discoveryAttempt responses (MODELS.get ⟨i, Nat.lt_trans hi hn⟩) =
          Except.error e := by
      intro i hi
      obtain ⟨ti, hti, hpi⟩ := hb i hi
      exact ⟨jsonSyntaxErrorMessage, by simp only [discoveryAttempt, hti, hpi]⟩
    exact (runFallbackGo_ok_of_first (discoveryAttempt responses)
      MODELS n hn [] v hs2 hb2).1
  · intro hf
    show (runFallbackGo (discoveryAttempt responses) [] MODELS).result = _
    have hf2 : ∀ m ∈ MODELS, discoveryAttempt responses m =
        Except.error ((fun _ => jsonSyntaxErrorMessage) m) := by
      intro m hm
      obtain ⟨tm, htm, hpm⟩ := hf m hm
      simp only [discoveryAttempt, htm, hpm]
    rw [runFallbackGo_allfail (discoveryAttempt responses)
      (fun _ => jsonSyntaxErrorMessage) MODELS [] hf2]
    simp

/-- Witness for C5 amended: `fetchYesterdayPulse` yields the aggregate
`schema is not defined` error at a concrete oracle, and in
`fetchDiscoverySuggestions`, with the first model returning unparseable
text and the second a JSON object, the caller receives the parsed
object of the second model. -/
theorem claim_C5_witness :
    fetchYesterdayPulse (fun _ => Except.ok "not json") =
      Except.error (allFailedMessage
        (MODELS.map (fun m => modelFailLine m schemaRefErrorMessage))) ∧
    fetchDiscoverySuggestions (fun m => if m = "gemini-flash-lite-latest"
        then Except.ok "junk" else Except.ok "\x7b\"a\":1\x7d") =
      Except.ok (JVal.obj [("a", JVal.num 1)]) := by
  constructor
  · exact (claim_C5_parse_failure_is_candidate_failure
      (fun _ => Except.ok "not json")).1
  · exact (claim_C5_parse_failure_is_candidate_failure
      (fun m => if m = "gemini-flash-lite-latest"
        then Except.ok "junk" else Except.ok "\x7b\"a\":1\x7d")).2.1
      1 (by decide) (JVal.obj [("a", JVal.num 1)]) "\x7b\"a\":1\x7d"
      (fun i hi => by interval_cases i; exact ⟨"junk", rfl, rfl⟩)
      rfl rfl

/-- C6.  A model identifier containing `lite` gets the amended system
instruction and no response schema or mime type; any other identifier
gets the unamended instruction with the schema object and the
`application/json` mime type attached. -/
theorem claim_C6_smart_config {α : Type} (model : String) (schema : α) (si : String) :
    (jsIncludes "lite".data model.data = true →
      getSmartConfig model schema si =
        ⟨si ++ liteDirective, true, none, none⟩) ∧
    (jsIncludes "lite".data model.data = false →
      getSmartConfig model schema si =
        ⟨si, true, some "application/json", some schema⟩) := by
  constructor
  · intro h
    simp [getSmartConfig, h]
  · intro h
    simp [getSmartConfig, h]

/-- Witness for C6: a lite identifier and a non-lite identifier from the
hardcoded list. -/
theorem claim_C6_witness :
    getSmartConfig "gemini-flash-lite-latest" (0 : Nat) "SI" =
      ⟨"SI" ++ liteDirective, true, none, none⟩ ∧
    getSmartConfig "gemini-2.0-flash" (0 : Nat) "SI" =
      ⟨"SI", true, some "application/json", some 0⟩ :=
  ⟨(claim_C6_smart_config "gemini-flash-lite-latest" 0 "SI").1 (by decide),
   (claim_C6_smart_config "gemini-2.0-flash" 0 "SI").2 (by decide)⟩

/-- C3.  Reading within 30 minutes of the stored timestamp returns the
cached value with no fallback request issued and the cache unchanged;
a timestamp 30 minutes or more in the past makes the lookup miss; and
on any miss a single fallback request is issued and, on success, both
entries are overwritten with the new result. -/
theorem claim_C3_cache_freshness (genFn : String → Except String MarketStatus)
    (now : Nat) (st : CacheState) :
    (∀ cs ct t m, st.status = some cs → st.time = some ct → jsParseInt ct = some t →
      now - t < CACHE_DURATION → jsonParseStatus cs = some m →
      checkMarketStatus genFn now st = (Except.ok m, st, 0)) ∧
    (∀ ct t, st.time = some ct → jsParseInt ct = some t → CACHE_DURATION ≤ now - t →
      cacheLookup st now = none) ∧
    (∀ r, cacheLookup st now = none → generateWithFallback genFn = Except.ok r →
      checkMarketStatus genFn now st =
        (Except.ok r, ⟨some (jsonStringifyStatus r), some (toString now)⟩, 1)) := by
  refine ⟨?_, ?_, ?_⟩
  · intro cs ct t m hcs hct htn hfresh hparse
    have hhit : cacheLookup st now = some m := by
      simp [cacheLookup, hcs, hct, htn, hfresh, hparse]
    simp [checkMarketStatus, hhit]
  · intro ct t hct htn hstale
    cases hcs : st.status with
    | none => simp [cacheLookup, hcs]
    | some cs => simp [cacheLookup, hcs, hct, htn, Nat.not_lt.mpr hstale]
  · intro r hmiss hok
    exact checkMarketStatus_miss_ok genFn now st r hmiss hok

/-- Witness for C3: a status cached at time 100 is returned from the
cache 29 minutes later with no request; at exactly 30 minutes the
lookup misses; and on a miss a fresh result overwrites both entries. -/
theorem claim_C3_witness :
    checkMarketStatus (fun _ => Except.ok ⟨MarketStatusKind.CLOSED, "w"⟩)
        (100 + 29 * 60 * 1000)
        ⟨some (jsonStringifyStatus ⟨MarketStatusKind.OPEN, "r"⟩), some "100"⟩ =
      (Except.ok ⟨MarketStatusKind.OPEN, "r"⟩,
        ⟨some (jsonStringifyStatus ⟨MarketStatusKind.OPEN, "r"⟩), some "100"⟩, 0) ∧
    cacheLookup ⟨some (jsonStringifyStatus ⟨MarketStatusKind.OPEN, "r"⟩), some "100"⟩
        (100 + 30 * 60 * 1000) = none ∧
    checkMarketStatus (fun _ => Except.ok ⟨MarketStatusKind.CLOSED, "w"⟩)
        (100 + 30 * 60 * 1000)
        ⟨some (jsonStringifyStatus ⟨MarketStatusKind.OPEN, "r"⟩), some "100"⟩ =
      (Except.ok ⟨MarketStatusKind.CLOSED, "w"⟩,
        ⟨some (jsonStringifyStatus ⟨MarketStatusKind.CLOSED, "w"⟩),
          some (toString (100 + 30 * 60 * 1000))⟩, 1) := by
  refine ⟨?_, ?_, ?_⟩
  · exact (claim_C3_cache_freshness _ _ _).1
      (jsonStringifyStatus ⟨MarketStatusKind.OPEN, "r"⟩) "100" 100
      ⟨MarketStatusKind.OPEN, "r"⟩ rfl rfl rfl (by decide) rfl
  · exact (claim_C3_cache_freshness (fun _ => Except.ok ⟨MarketStatusKind.CLOSED, "w"⟩)
      (100 + 30 * 60 * 1000) _).2.1 "100" 100 rfl rfl (by decide)
  · exact (claim_C3_cache_freshness _ _ _).2.2
      ⟨MarketStatusKind.CLOSED, "w"⟩ (by decide) rfl

/-- C9.  On a cache-miss call that succeeds, the timestamp stored with
the new status is `now`, the single `Date.now()` sample taken at
function entry (geminiService.ts line 100) before the fallback request
is issued, and reused verbatim at the write (line 129); the freshness
window is therefore measured from the moment of the cache check. -/
theorem claim_C9_timestamp_from_entry (genFn : String → Except String MarketStatus)
    (now : Nat) (st : CacheState) (r : MarketStatus)
    (hmiss : cacheLookup st now = none)
    (hok : generateWithFallback genFn = Except.ok r) :
    (checkMarketStatus genFn now st).2.1.time = some (toString now) := by
  rw [checkMarketStatus_miss_ok genFn now st r hmiss hok]

/-- Witness for C9: with an empty cache at entry time 42, the stored
timestamp is the string of 42. -/
theorem claim_C9_witness :
    (checkMarketStatus (fun _ => Except.ok ⟨MarketStatusKind.OPEN, "r"⟩)
        42 ⟨none, none⟩).2.1.time = some (toString 42) := by
  exact claim_C9_timestamp_from_entry (fun _ => Except.ok ⟨MarketStatusKind.OPEN, "r"⟩)
    42 ⟨none, none⟩ ⟨MarketStatusKind.OPEN, "r"⟩ rfl rfl

/-- C10.  If every model fails, `checkMarketStatus` propagates the
aggregate error and returns with the cache state unchanged: the two
entries are written only after a successful fetch. -/
theorem claim_C10_cache_unchanged_on_failure (genFn : String → Except String MarketStatus)
    (msg : String → String) (now : Nat) (st : CacheState)
    (hmiss : cacheLookup st now = none)
    (hf : ∀ m ∈ MODELS, genFn m = Except.error (msg m)) :
    checkMarketStatus genFn now st =
      (Except.error (allFailedMessage (MODELS.map (fun m => modelFailLine m (msg m)))),
        st, 1) := by
  have herr : generateWithFallback genFn =
      Except.error (allFailedMessage (MODELS.map (fun m => modelFailLine m (msg m)))) := by
    show (runFallbackGo genFn [] MODELS).result = _
    rw [runFallbackGo_allfail genFn msg MODELS [] hf]
    simp
  simp [checkMarketStatus, hmiss, herr]

/-- Witness for C10: empty cache, every model failing with `boom`; the
error is the aggregate message and the cache stays empty. -/
theorem claim_C10_witness :
    checkMarketStatus (fun _ => Except.error "boom") 42 ⟨none, none⟩ =
      (Except.error (allFailedMessage (MODELS.map (fun m => modelFailLine m "boom"))),
        ⟨none, none⟩, 1) := by
  exact claim_C10_cache_unchanged_on_failure (fun _ => Except.error "boom")
    (fun _ => "boom") 42 ⟨none, none⟩ rfl (fun m _ => rfl)

/-
  Lemmas about the greedy regex scan of `cleanJson`.
-/

/-- Appending a suffix free of `c` does not change the greedy cut. -/
theorem takeUpToLast_append_of_not_mem (c : Char) (suf : List Char) (hc : c ∉ suf) :
    ∀ l : List Char, c ∈ l → takeUpToLast c (l ++ suf) = takeUpToLast c l
  | [], hl => absurd hl (List.not_mem_nil c)
  | x :: xs, hl => by
    show (if c ∈ xs ++ suf then x :: takeUpToLast c (xs ++ suf)
        else if x = c then [x] else []) = takeUpToLast c (x :: xs)
    by_cases hxs : c ∈ xs
    · rw [if_pos (List.mem_append_left suf hxs),
        takeUpToLast_append_of_not_mem c suf hc xs hxs]
      show _ = if c ∈ xs then x :: takeUpToLast c xs else if x = c then [x] else []
      rw [if_pos hxs]
    · have hx : x = c := by
        rcases List.mem_cons.mp hl with h | h
        · exact h.symm
        · exact absurd h hxs
      have hxs2 : c ∉ xs ++ suf := by
        intro h
        rcases List.mem_append.mp h with h | h
        · exact hxs h
        · exact hc h
      rw [if_neg hxs2, if_pos hx]
      show _ = if c ∈ xs then x :: takeUpToLast c xs else if x = c then [x] else []
      rw [if_neg hxs, if_pos hx]

/-- When `c` is the last element, the greedy cut keeps the whole list. -/
theorem takeUpToLast_of_getLast (c : Char) :
    ∀ l : List Char, l.getLast? = some c → takeUpToLast c l = l
  | [], h => by simp at h
  | [x], h => by
    simp only [List.getLast?_singleton, Option.some.injEq] at h
    show (if c ∈ ([] : List Char) then x :: takeUpToLast c [] else if x = c then [x] else []) = [x]
    rw [if_neg (List.not_mem_nil c), if_pos h]
  | x :: y :: t, h => by
    rw [List.getLast?_cons_cons] at h
    have hm : c ∈ y :: t := List.mem_of_getLast?_eq_some h
    show (if c ∈ y :: t then x :: takeUpToLast c (y :: t) else if x = c then [x] else []) =
      x :: y :: t
    rw [if_pos hm, takeUpToLast_of_getLast c (y :: t) h]

/-- The scan skips any prefix containing no opening brace or bracket. -/
theorem regexScan_append_no_open :
    ∀ (pre l : List Char), (∀ c ∈ pre, c ≠ '{' ∧ c ≠ '[') →
      regexScan (pre ++ l) = regexScan l
  | [], l, _ => rfl
  | x :: pre, l, h => by
    have hx := h x (List.mem_cons_self x pre)
    have h1 : ¬(x = '{' ∧ '}' ∈ pre ++ l) := fun hc => hx.1 hc.1
    have h2 : ¬(x = '[' ∧ ']' ∈ pre ++ l) := fun hc => hx.2 hc.1
    show (if x = '{' ∧ '}' ∈ pre ++ l then some (x :: takeUpToLast '}' (pre ++ l))
        else if x = '[' ∧ ']' ∈ pre ++ l then some (x :: takeUpToLast ']' (pre ++ l))
        else regexScan (pre ++ l)) = regexScan l
    rw [if_neg h1, if_neg h2]
    exact regexScan_append_no_open pre l (fun c hc => h c (List.mem_cons_of_mem x hc))

/-- At a brace-opened body whose last character is the closing brace,
followed by a close-free suffix, the scan returns exactly the body. -/
theorem regexScan_extract_obj (Jt suf : List Char)
    (hlast : Jt.getLast? = some '}') (hsuf : '}' ∉ suf) :
    regexScan (('{' :: Jt) ++ suf) = some ('{' :: Jt) := by
  have hm : '}' ∈ Jt := List.mem_of_getLast?_eq_some hlast
  have hm2 : '}' ∈ Jt ++ suf := List.mem_append_left suf hm
  show (if ('{' : Char) = '{' ∧ '}' ∈ Jt ++ suf
      then some ('{' :: takeUpToLast '}' (Jt ++ suf))
      else if ('{' : Char) = '[' ∧ ']' ∈ Jt ++ suf
      then some ('{' :: takeUpToLast ']' (Jt ++ suf))
      else regexScan (Jt ++ suf)) = some ('{' :: Jt)
  rw [if_pos (And.intro rfl hm2),
    takeUpToLast_append_of_not_mem '}' suf hsuf Jt hm,
    takeUpToLast_of_getLast '}' Jt hlast]

/-- Bracket version of `regexScan_extract_obj`. -/
theorem regexScan_extract_arr (Jt suf : List Char)
    (hlast : Jt.getLast? = some ']') (hsuf : ']' ∉ suf) :
    regexScan (('[' :: Jt) ++ suf) = some ('[' :: Jt) := by
  have hm : ']' ∈ Jt := List.mem_of_getLast?_eq_some hlast
  have hm2 : ']' ∈ Jt ++ suf := List.mem_append_left suf hm
  have h1 : ¬(('[' : Char) = '{' ∧ '}' ∈ Jt ++ suf) := fun hc => by
    exact absurd hc.1 (by decide)
  show (if ('[' : Char) = '{' ∧ '}' ∈ Jt ++ suf
      then some ('[' :: takeUpToLast '}' (Jt ++ suf))
      else if ('[' : Char) = '[' ∧ ']' ∈ Jt ++ suf
      then some ('[' :: takeUpToLast ']' (Jt ++ suf))
      else regexScan (Jt ++ suf)) = some ('[' :: Jt)
  rw [if_neg h1, if_pos (And.intro rfl hm2),
    takeUpToLast_append_of_not_mem ']' suf hsuf Jt hm,
    takeUpToLast_of_getLast ']' Jt hlast]

/-- Data of a string concatenation. -/
theorem string_data_append (s t : String) : (s ++ t).data = s.data ++ t.data := by
  cases s
  cases t
  rfl

/-- Rebuilding a string from its data. -/
theorem string_mk_data (s : String) : String.mk s.data = s := by
  cases s
  rfl

/-- Last element of a nonempty tail, from the last element of the cons
when the head differs from it. -/
theorem getLast_tail_of_cons_ne {a b : Char} {l : List Char}
    (h : (a :: l).getLast? = some b) (hab : a ≠ b) : l.getLast? = some b := by
  cases l with
  | nil =>
    simp only [List.getLast?_singleton, Option.some.injEq] at h
    exact absurd h hab
  | cons y t => rwa [List.getLast?_cons_cons] at h

/-- C4, counterexample to the claim as stated: the text consisting of
the well-formed object followed by the prose `space closing-brace`
contains a well-formed JSON object, yet `cleanJson` returns the greedy
span up to the last closing brace, which does not parse. -/
theorem claim_C4_counterexample :
    parseJsonDoc "\x7b\"a\":1\x7d" = some (JVal.obj [("a", JVal.num 1)]) ∧
    cleanJson ("\x7b\"a\":1\x7d" ++ " \x7d") = "\x7b\"a\":1\x7d \x7d" ∧
    parseJsonDoc (cleanJson ("\x7b\"a\":1\x7d" ++ " \x7d")) = none :=
  ⟨rfl, rfl, rfl⟩

/-- C4, amended.  For every text `pre ++ J ++ suf` with `J` a well-formed
JSON object or array, where the preceding prose contains no opening
brace or bracket and the following prose contains no closing brace or
bracket, `cleanJson` returns exactly `J`, which parses to the same
structure as the embedded JSON.  (Without these two restrictions the
greedy scan grabs a larger span, as the counterexample shows.) -/
theorem claim_C4_extracts_embedded_json (pre J suf : String) (v : JVal)
    (hpre : ∀ c ∈ pre.data, c ≠ '{' ∧ c ≠ '[')
    (hsuf1 : '}' ∉ suf.data) (hsuf2 : ']' ∉ suf.data)
    (hshape : (J.data.head? = some '{' ∧ J.data.getLast? = some '}') ∨
      (J.data.head? = some '[' ∧ J.data.getLast? = some ']'))
    (hparse : parseJsonDoc J = some v) :
    cleanJson (pre ++ J ++ suf) = J ∧
      parseJsonDoc (cleanJson (pre ++ J ++ suf)) = some v := by
  have hdata : (pre ++ J ++ suf).data = pre.data ++ (J.data ++ suf.data) := by
    rw [string_data_append, string_data_append, List.append_assoc]
  have hscan : regexScan (pre ++ J ++ suf).data = some J.data := by
    rw [hdata, regexScan_append_no_open pre.data _ hpre]
    rcases hshape with ⟨hh, hl⟩ | ⟨hh, hl⟩
    · obtain ⟨Jt, hJ⟩ : ∃ Jt, J.data = '{' :: Jt := by
        cases hJd : J.data with
        | nil => rw [hJd] at hh; simp at hh
        | cons a t =>
          rw [hJd] at hh
          simp only [List.head?_cons, Option.some.injEq] at hh
          exact ⟨t, by rw [hh]⟩
      rw [hJ]
      rw [hJ] at hl
      exact regexScan_extract_obj Jt suf.data
        (getLast_tail_of_cons_ne hl (by decide)) hsuf1
    · obtain ⟨Jt, hJ⟩ : ∃ Jt, J.data = '[' :: Jt := by
        cases hJd : J.data with
        | nil => rw [hJd] at hh; simp at hh
        | cons a t =>
          rw [hJd] at hh
          simp only [List.head?_cons, Option.some.injEq] at hh
          exact ⟨t, by rw [hh]⟩
      rw [hJ]
      rw [hJ] at hl
      exact regexScan_extract_arr Jt suf.data
        (getLast_tail_of_cons_ne hl (by decide)) hsuf2
  have h1 : cleanJson (pre ++ J ++ suf) = J := by
    simp only [cleanJson, hscan, string_mk_data]
  exact ⟨h1, by rw [h1]; exact hparse⟩

/-- Witness for C4 amended: an object embedded between benign prose. -/
theorem claim_C4_witness :
    cleanJson ("Sure: " ++ "\x7b\"a\":1\x7d" ++ " done.") = "\x7b\"a\":1\x7d" ∧
      parseJsonDoc (cleanJson ("Sure: " ++ "\x7b\"a\":1\x7d" ++ " done.")) =
        some (JVal.obj [("a", JVal.num 1)]) := by
  exact claim_C4_extracts_embedded_json "Sure: " "\x7b\"a\":1\x7d" " done."
    (JVal.obj [("a", JVal.num 1)]) (by decide) (by decide) (by decide)
    (Or.inl (by exact ⟨rfl, rfl⟩)) rfl

/-
  Lemmas about the trim and fence-strip helpers of `cleanJson`.
-/

/-- Trimming does nothing when the head is not whitespace. -/
theorem trimLeft_cons_not_ws (x : Char) (l : List Char) (h : isWS x = false) :
    trimLeft (x :: l) = x :: l := by
  simp [trimLeft, List.dropWhile_cons, h]

/-- Left trim distributes over append when the left part survives. -/
theorem trimLeft_append_pos (a b : List Char) (h : trimLeft a ≠ []) :
    trimLeft (a ++ b) = trimLeft a ++ b := by
  simp only [trimLeft] at h ⊢
  rw [List.dropWhile_append]
  simp [List.isEmpty_iff, h]

/-- Left trim skips a fully-whitespace left part. -/
theorem trimLeft_append_nil (a b : List Char) (h : trimLeft a = []) :
    trimLeft (a ++ b) = trimLeft b := by
  simp only [trimLeft] at h ⊢
  rw [List.dropWhile_append]
  simp [List.isEmpty_iff, h]

/-- A list trims to nothing on the left exactly when all whitespace. -/
theorem trimLeft_eq_nil_iff (l : List Char) :
    trimLeft l = [] ↔ ∀ c ∈ l, isWS c = true := by
  simp [trimLeft, List.dropWhile_eq_nil_iff]

/-- A list trims to nothing on the right exactly when all whitespace. -/
theorem trimRight_eq_nil_iff (l : List Char) :
    trimRight l = [] ↔ ∀ c ∈ l, isWS c = true := by
  simp only [trimRight, List.reverse_eq_nil_iff, List.dropWhile_eq_nil_iff]
  constructor
  · intro h c hc
    exact h c (List.mem_reverse.mpr hc)
  · intro h c hc
    exact h c (List.mem_reverse.mp hc)

/-- Right trim distributes over append when the right part survives. -/
theorem trimRight_append_pos (a b : List Char) (h : trimRight b ≠ []) :
    trimRight (a ++ b) = a ++ trimRight b := by
  have hb : b.reverse.dropWhile isWS ≠ [] := by
    intro h0
    exact h (by simp [trimRight, h0])
  simp only [trimRight, List.reverse_append]
  rw [List.dropWhile_append]
  simp [List.isEmpty_iff, hb]

/-- Right trim skips a fully-whitespace right part. -/
theorem trimRight_append_nil (a b : List Char) (h : trimRight b = []) :
    trimRight (a ++ b) = trimRight a := by
  have hb : b.reverse.dropWhile isWS = [] := by
    simpa [trimRight, List.reverse_eq_nil_iff] using h
  simp only [trimRight, List.reverse_append]
  rw [List.dropWhile_append]
  simp [List.isEmpty_iff, hb]

/-- Right trim removes one trailing whitespace character. -/
theorem trimRight_snoc_ws (a : List Char) (x : Char) (h : isWS x = true) :
    trimRight (a ++ [x]) = trimRight a := by
  apply trimRight_append_nil
  simp [trimRight, List.dropWhile_cons, h]

/-- Right trim does nothing when the last character is not whitespace. -/
theorem trimRight_of_getLast_not_ws (l : List Char) (x : Char)
    (hl : l.getLast? = some x) (hx : isWS x = false) : trimRight l = l := by
  obtain ⟨a, rfl⟩ := List.getLast?_eq_some_iff.mp hl
  simp only [trimRight, List.reverse_append, List.reverse_cons, List.reverse_nil,
    List.nil_append, List.singleton_append, List.dropWhile_cons, hx]
  simp

/-- The right-trimmed list is an initial segment of the original. -/
theorem exists_trimRight_decomp (l : List Char) : ∃ w, l = trimRight l ++ w := by
  refine ⟨(l.reverse.takeWhile isWS).reverse, ?_⟩
  rw [trimRight, ← List.reverse_append, List.takeWhile_append_dropWhile, List.reverse_reverse]

/-- Left and right trimming commute. -/
theorem trimLeft_trimRight_comm (l : List Char) :
    trimLeft (trimRight l) = trimRight (trimLeft l) := by
  by_cases hm : trimLeft l = []
  · have hall := (trimLeft_eq_nil_iff l).mp hm
    have h1 : trimRight l = [] := (trimRight_eq_nil_iff l).mpr hall
    rw [hm, h1]
    simp [trimLeft, trimRight]
  · obtain ⟨x, xs, hmx⟩ : ∃ x xs, trimLeft l = x :: xs := by
      cases hml : trimLeft l with
      | nil => exact absurd hml hm
      | cons x xs => exact ⟨x, xs, rfl⟩
    have hx : isWS x = false := by
      have h := List.head?_dropWhile_not isWS l
      simp only [trimLeft] at hmx
      rw [hmx] at h
      simpa using h
    have htr : trimRight (trimLeft l) ≠ [] := by
      intro h0
      have h1 := (trimRight_eq_nil_iff _).mp h0 x (by rw [hmx]; exact List.mem_cons_self x xs)
      rw [hx] at h1
      exact Bool.false_ne_true h1
    have hdec : l = l.takeWhile isWS ++ trimLeft l :=
      (List.takeWhile_append_dropWhile isWS l).symm
    have h2 : trimRight l = l.takeWhile isWS ++ trimRight (trimLeft l) := by
      conv_lhs => rw [hdec]
      exact trimRight_append_pos _ _ htr
    rw [h2, trimLeft_append_nil _ _ ((trimLeft_eq_nil_iff _).mpr
      (fun c hc => List.mem_takeWhile_imp hc))]
    obtain ⟨w, hw⟩ := exists_trimRight_decomp (trimLeft l)
    cases hrt : trimRight (trimLeft l) with
    | nil => exact absurd hrt htr
    | cons y ys =>
      rw [hrt] at hw
      rw [hmx] at hw
      have hxy : x = y := by
        have := congrArg List.head? hw
        simpa using this
      exact trimLeft_cons_not_ws y ys (hxy ▸ hx)

/-- A list is a prefix of itself followed by anything. -/
theorem isPrefixOf_append_self : ∀ (t r : List Char), t.isPrefixOf (t ++ r) = true
  | [], _ => List.isPrefixOf_nil_left
  | a :: as, r => by
    simp only [List.cons_append, List.isPrefixOf, beq_self_eq_true, Bool.true_and]
    exact isPrefixOf_append_self as r

/-- Extending the larger list preserves prefixes. -/
theorem isPrefixOf_mono_append : ∀ (t a b : List Char),
    t.isPrefixOf a = true → t.isPrefixOf (a ++ b) = true
  | [], _, _, _ => List.isPrefixOf_nil_left
  | t :: ts, [], b, h => by simp [List.isPrefixOf] at h
  | t :: ts, x :: xs, b, h => by
    simp only [List.isPrefixOf, Bool.and_eq_true, beq_iff_eq] at h
    simp only [List.cons_append, List.isPrefixOf, Bool.and_eq_true, beq_iff_eq]
    exact ⟨h.1, isPrefixOf_mono_append ts xs b h.2⟩

/-- A prefix of `l ++ c :: r` that avoids `c` is already a prefix of `l`. -/
theorem isPrefixOf_of_append_cons : ∀ (t : List Char) (c : Char), c ∉ t →
    ∀ (l r : List Char), t.isPrefixOf (l ++ c :: r) = true → t.isPrefixOf l = true
  | [], _, _, _, _, _ => List.isPrefixOf_nil_left
  | t :: ts, c, hc, [], r, h => by
    simp only [List.nil_append, List.isPrefixOf, Bool.and_eq_true, beq_iff_eq] at h
    exact absurd (h.1 ▸ List.mem_cons_self t ts) hc
  | t :: ts, c, hc, x :: xs, r, h => by
    simp only [List.cons_append, List.isPrefixOf, Bool.and_eq_true, beq_iff_eq] at h
    simp only [List.isPrefixOf, Bool.and_eq_true, beq_iff_eq]
    exact ⟨h.1, isPrefixOf_of_append_cons ts c
      (fun hm => hc (List.mem_cons_of_mem t hm)) xs r h.2⟩

/-- A prefix of a right-trimmed list is a prefix of the original. -/
theorem isPrefixOf_of_trimRight (t l : List Char)
    (h : t.isPrefixOf (trimRight l) = true) : t.isPrefixOf l = true := by
  obtain ⟨w, hw⟩ := exists_trimRight_decomp l
  rw [hw]
  exact isPrefixOf_mono_append t (trimRight l) w h

/-- Stripping a tag that is present removes it and the whitespace run. -/
theorem stripFenceTag_hit (tag a : List Char) :
    stripFenceTag tag (tag ++ a) = trimLeft a := by
  rw [stripFenceTag, if_pos (isPrefixOf_append_self tag a), List.drop_left]

/-- Stripping a tag that is absent does nothing. -/
theorem stripFenceTag_miss (tag l : List Char) (h : tag.isPrefixOf l = false) :
    stripFenceTag tag l = l := by
  rw [stripFenceTag, if_neg (by rw [h]; exact Bool.false_ne_true)]

/-- The closing fence is recognized and removed with the whitespace
before it. -/
theorem stripFenceEnd_hit (a : List Char) :
    stripFenceEnd (a ++ tick3) = trimRight a := by
  have hsuf : tick3.isSuffixOf (a ++ tick3) = true := by
    rw [List.isSuffixOf, List.reverse_append]
    exact isPrefixOf_append_self tick3.reverse a.reverse
  rw [stripFenceEnd, if_pos hsuf]
  have hlen : (a ++ tick3).length - 3 = a.length := by
    simp [List.length_append, tick3]
  rw [hlen, List.take_left]

/-- Without a closing fence nothing is removed at the end. -/
theorem stripFenceEnd_miss (l : List Char) (h : tick3.isSuffixOf l = false) :
    stripFenceEnd l = l := by
  rw [stripFenceEnd, if_neg (by rw [h]; exact Bool.false_ne_true)]

/-- Trimming consumes a whitespace head. -/
theorem trimLeft_cons_ws (x : Char) (l : List Char) (h : isWS x = true) :
    trimLeft (x :: l) = trimLeft l := by
  simp [trimLeft, List.dropWhile_cons, h]

/-- A tag that misses before a newline still misses with a tail
appended after that newline, provided the tag has no newline. -/
theorem tag_miss_before_newline (tag l r : List Char) (hnl : '\n' ∉ tag)
    (h : tag.isPrefixOf l = false) : tag.isPrefixOf (l ++ '\n' :: r) = false := by
  cases hb : tag.isPrefixOf (l ++ '\n' :: r) with
  | false => rfl
  | true =>
    rw [isPrefixOf_of_append_cons tag '\n' hnl l r hb] at h
    exact Bool.noConfusion h

/-- The two trims annihilate together. -/
theorem trimRight_nil_of_trimLeft_nil (l : List Char) (h : trimLeft l = []) :
    trimRight l = [] :=
  (trimRight_eq_nil_iff l).mpr ((trimLeft_eq_nil_iff l).mp h)

/-- The two trims annihilate together, other direction. -/
theorem trimLeft_nil_of_trimRight_nil (l : List Char) (h : trimRight l = []) :
    trimLeft l = [] :=
  (trimLeft_eq_nil_iff l).mpr ((trimRight_eq_nil_iff l).mp h)

/-- Fully-whitespace content trims to nothing. -/
theorem jsTrim_nil_of_trimLeft_nil (l : List Char) (h : trimLeft l = []) :
    jsTrim l = [] := by
  rw [jsTrim, h]
  rfl

/-- Tail computation shared by the fenced forms whose bare-fence strip
has not yet fired: strip the bare tag, then the closing fence. -/
theorem stripTail_afterJson (inner : List Char)
    (h3 : tick3.isPrefixOf (trimLeft inner) = false) :
    stripFenceEnd (stripFenceTag tick3 (trimLeft (inner ++ ('\n' :: tick3)))) =
      jsTrim inner := by
  by_cases hni : trimLeft inner = []
  · rw [trimLeft_append_nil _ _ hni,
      show trimLeft ('\n' :: tick3) = tick3 from by decide,
      show stripFenceTag tick3 tick3 = [] from by decide,
      show stripFenceEnd ([] : List Char) = [] from by decide,
      jsTrim_nil_of_trimLeft_nil inner hni]
  · rw [trimLeft_append_pos _ _ hni,
      stripFenceTag_miss tick3 _
        (tag_miss_before_newline tick3 (trimLeft inner) tick3 (by decide) h3),
      show trimLeft inner ++ ('\n' :: tick3) = (trimLeft inner ++ ['\n']) ++ tick3
        from by simp,
      stripFenceEnd_hit, trimRight_snoc_ws _ '\n' (by decide)]
    rfl

/-- Tail computation for the form whose bare-fence strip already fired. -/
theorem stripTail_afterTick (inner : List Char) :
    stripFenceEnd (trimLeft (inner ++ ('\n' :: tick3))) = jsTrim inner := by
  by_cases hni : trimLeft inner = []
  · rw [trimLeft_append_nil _ _ hni,
      show trimLeft ('\n' :: tick3) = tick3 from by decide,
      show stripFenceEnd tick3 = [] from by decide,
      jsTrim_nil_of_trimLeft_nil inner hni]
  · rw [trimLeft_append_pos _ _ hni,
      show trimLeft inner ++ ('\n' :: tick3) = (trimLeft inner ++ ['\n']) ++ tick3
        from by simp,
      stripFenceEnd_hit, trimRight_snoc_ws _ '\n' (by decide)]
    rfl

/-- Fallback cleanup of a text wrapped in a json-tagged opening fence and
a closing fence. -/
theorem fallbackClean_json_both (inner : List Char)
    (h3 : tick3.isPrefixOf (trimLeft inner) = false) :
    fallbackClean (tickJson ++ ('\n' :: (inner ++ ('\n' :: tick3)))) = jsTrim inner := by
  rw [fallbackClean]
  have h1 : jsTrim (tickJson ++ ('\n' :: (inner ++ ('\n' :: tick3)))) =
      tickJson ++ ('\n' :: (inner ++ ('\n' :: tick3))) := by
    rw [jsTrim, trimLeft_append_pos _ _ (by decide),
      show trimLeft tickJson = tickJson from by decide,
      show tickJson ++ ('\n' :: (inner ++ ('\n' :: tick3))) =
        ((tickJson ++ ('\n' :: inner)) ++ ['\n']) ++ tick3 from by simp,
      trimRight_append_pos _ _ (by decide),
      show trimRight tick3 = tick3 from by decide]
  rw [h1, stripFenceTag_hit, trimLeft_cons_ws '\n' _ (by decide)]
  exact stripTail_afterJson inner h3

/-- Fallback cleanup of a text wrapped in a bare opening fence and a
closing fence. -/
theorem fallbackClean_bare_both (inner : List Char) :
    fallbackClean (tick3 ++ ('\n' :: (inner ++ ('\n' :: tick3)))) = jsTrim inner := by
  rw [fallbackClean]
  have h1 : jsTrim (tick3 ++ ('\n' :: (inner ++ ('\n' :: tick3)))) =
      tick3 ++ ('\n' :: (inner ++ ('\n' :: tick3))) := by
    rw [jsTrim, trimLeft_append_pos _ _ (by decide),
      show trimLeft tick3 = tick3 from by decide,
      show tick3 ++ ('\n' :: (inner ++ ('\n' :: tick3))) =
        ((tick3 ++ ('\n' :: inner)) ++ ['\n']) ++ tick3 from by simp,
      trimRight_append_pos _ _ (by decide),
      show trimRight tick3 = tick3 from by decide]
  rw [h1, stripFenceTag_miss tickJson _
      (tag_miss_before_newline tickJson tick3 _ (by decide) (by decide)),
    stripFenceTag_hit, trimLeft_cons_ws '\n' _ (by decide)]
  exact stripTail_afterTick inner

/-- Whitespace content followed by anything is trimmed from the right to
what the tail trims to nothing. -/
theorem trimRight_ws_head_append (inner : List Char) (htri : trimRight inner = []) :
    trimRight (['\n'] ++ inner) = [] := by
  refine (trimRight_eq_nil_iff _).mpr ?_
  intro c hc
  rcases List.mem_append.mp hc with hc | hc
  · rcases List.mem_singleton.mp hc with rfl
    decide
  · exact (trimRight_eq_nil_iff inner).mp htri c hc

/-- Fallback cleanup of a text with only a json-tagged opening fence. -/
theorem fallbackClean_json_leading (inner : List Char)
    (h3 : tick3.isPrefixOf (trimLeft inner) = false)
    (hE : tick3.isSuffixOf (jsTrim inner) = false) :
    fallbackClean (tickJson ++ ('\n' :: inner)) = jsTrim inner := by
  by_cases htri : trimRight inner = []
  · have hni : trimLeft inner = [] := trimLeft_nil_of_trimRight_nil inner htri
    have h1 : jsTrim (tickJson ++ ('\n' :: inner)) = tickJson := by
      rw [jsTrim, trimLeft_append_pos _ _ (by decide),
        show trimLeft tickJson = tickJson from by decide,
        show tickJson ++ ('\n' :: inner) = tickJson ++ (['\n'] ++ inner) from by simp,
        trimRight_append_nil tickJson _ (trimRight_ws_head_append inner htri),
        show trimRight tickJson = tickJson from by decide]
    rw [fallbackClean, h1,
      show stripFenceTag tickJson tickJson = [] from by decide,
      show stripFenceTag tick3 ([] : List Char) = [] from by decide,
      show stripFenceEnd ([] : List Char) = [] from by decide,
      jsTrim_nil_of_trimLeft_nil inner hni]
  · have h1 : jsTrim (tickJson ++ ('\n' :: inner)) =
        tickJson ++ ('\n' :: trimRight inner) := by
      rw [jsTrim, trimLeft_append_pos _ _ (by decide),
        show trimLeft tickJson = tickJson from by decide,
        show tickJson ++ ('\n' :: inner) = (tickJson ++ ['\n']) ++ inner from by simp,
        trimRight_append_pos _ _ htri]
      simp
    rw [fallbackClean, h1, stripFenceTag_hit, trimLeft_cons_ws '\n' _ (by decide),
      trimLeft_trimRight_comm]
    have hm3 : tick3.isPrefixOf (trimRight (trimLeft inner)) = false := by
      cases hb : tick3.isPrefixOf (trimRight (trimLeft inner)) with
      | false => rfl
      | true =>
        rw [isPrefixOf_of_trimRight tick3 (trimLeft inner) hb] at h3
        exact Bool.noConfusion h3
    rw [stripFenceTag_miss tick3 _ hm3,
      stripFenceEnd_miss (trimRight (trimLeft inner)) hE]
    rfl

/-- Fallback cleanup of a text with only a bare opening fence. -/
theorem fallbackClean_bare_leading (inner : List Char)
    (hE : tick3.isSuffixOf (jsTrim inner) = false) :
    fallbackClean (tick3 ++ ('\n' :: inner)) = jsTrim inner := by
  by_cases htri : trimRight inner = []
  · have hni : trimLeft inner = [] := trimLeft_nil_of_trimRight_nil inner htri
    have h1 : jsTrim (tick3 ++ ('\n' :: inner)) = tick3 := by
      rw [jsTrim, trimLeft_append_pos _ _ (by decide),
        show trimLeft tick3 = tick3 from by decide,
        show tick3 ++ ('\n' :: inner) = tick3 ++ (['\n'] ++ inner) from by simp,
        trimRight_append_nil tick3 _ (trimRight_ws_head_append inner htri),
        show trimRight tick3 = tick3 from by decide]
    rw [fallbackClean, h1,
      show stripFenceTag tickJson tick3 = tick3 from by decide,
      show stripFenceTag tick3 tick3 = [] from by decide,
      show stripFenceEnd ([] : List Char) = [] from by decide,
      jsTrim_nil_of_trimLeft_nil inner hni]
  · have h1 : jsTrim (tick3 ++ ('\n' :: inner)) =
        tick3 ++ ('\n' :: trimRight inner) := by
      rw [jsTrim, trimLeft_append_pos _ _ (by decide),
        show trimLeft tick3 = tick3 from by decide,
        show tick3 ++ ('\n' :: inner) = (tick3 ++ ['\n']) ++ inner from by simp,
        trimRight_append_pos _ _ htri]
      simp
    rw [fallbackClean, h1,
      stripFenceTag_miss tickJson _
        (tag_miss_before_newline tickJson tick3 _ (by decide) (by decide)),
      stripFenceTag_hit, trimLeft_cons_ws '\n' _ (by decide),
      trimLeft_trimRight_comm, stripFenceEnd_miss (trimRight (trimLeft inner)) hE]
    rfl

/-- Fallback cleanup of a text with only a closing fence. -/
theorem fallbackClean_trailing (inner : List Char)
    (h3 : tick3.isPrefixOf (trimLeft inner) = false)
    (hJ : tickJson.isPrefixOf (trimLeft inner) = false) :
    fallbackClean (inner ++ ('\n' :: tick3)) = jsTrim inner := by
  by_cases hni : trimLeft inner = []
  · have h1 : jsTrim (inner ++ ('\n' :: tick3)) = tick3 := by
      rw [jsTrim, trimLeft_append_nil _ _ hni,
        show trimLeft ('\n' :: tick3) = tick3 from by decide,
        show trimRight tick3 = tick3 from by decide]
    rw [fallbackClean, h1,
      show stripFenceTag tickJson tick3 = tick3 from by decide,
      show stripFenceTag tick3 tick3 = [] from by decide,
      show stripFenceEnd ([] : List Char) = [] from by decide,
      jsTrim_nil_of_trimLeft_nil inner hni]
  · have h1 : jsTrim (inner ++ ('\n' :: tick3)) = trimLeft inner ++ ('\n' :: tick3) := by
      rw [jsTrim, trimLeft_append_pos _ _ hni,
        show trimLeft inner ++ ('\n' :: tick3) = (trimLeft inner ++ ['\n']) ++ tick3
          from by simp,
        trimRight_append_pos _ _ (by decide),
        show trimRight tick3 = tick3 from by decide]
    rw [fallbackClean, h1,
      stripFenceTag_miss tickJson _
        (tag_miss_before_newline tickJson (trimLeft inner) tick3 (by decide) hJ),
      stripFenceTag_miss tick3 _
        (tag_miss_before_newline tick3 (trimLeft inner) tick3 (by decide) h3),
      show trimLeft inner ++ ('\n' :: tick3) = (trimLeft inner ++ ['\n']) ++ tick3
        from by simp,
      stripFenceEnd_hit, trimRight_snoc_ws _ '\n' (by decide)]
    rfl

/-- C8.  For a text wrapped only in a leading and/or trailing
triple-backtick code fence (json-tagged or bare), when the brace/bracket
scan finds no JSON-looking substring, `cleanJson` returns the
fence-stripped, whitespace-trimmed content.  The hypotheses say that the
wrapped content does not itself begin or end with a fence tag, which is
what `wrapped only in a leading and/or trailing fence` requires. -/
theorem claim_C8_fence_stripping (inner : String)
    (h3 : tick3.isPrefixOf (trimLeft inner.data) = false)
    (hJ : tickJson.isPrefixOf (trimLeft inner.data) = false)
    (hE : tick3.isSuffixOf (jsTrim inner.data) = false) :
    (regexScan ("```json\n" ++ inner ++ "\n```").data = none →
      cleanJson ("```json\n" ++ inner ++ "\n```") = String.mk (jsTrim inner.data)) ∧
    (regexScan ("```\n" ++ inner ++ "\n```").data = none →
      cleanJson ("```\n" ++ inner ++ "\n```") = String.mk (jsTrim inner.data)) ∧
    (regexScan ("```json\n" ++ inner).data = none →
      cleanJson ("```json\n" ++ inner) = String.mk (jsTrim inner.data)) ∧
    (regexScan ("```\n" ++ inner).data = none →
      cleanJson ("```\n" ++ inner) = String.mk (jsTrim inner.data)) ∧
    (regexScan (inner ++ "\n```").data = none →
      cleanJson (inner ++ "\n```") = String.mk (jsTrim inner.data)) := by
  have hd1 : ("```json\n" ++ inner ++ "\n```").data =
      tickJson ++ ('\n' :: (inner.data ++ ('\n' :: tick3))) := by
    rw [string_data_append, string_data_append,
      show ("```json\n" : String).data = tickJson ++ ['\n'] from by decide,
      show ("\n```" : String).data = '\n' :: tick3 from by decide]
    simp
  have hd2 : ("```\n" ++ inner ++ "\n```").data =
      tick3 ++ ('\n' :: (inner.data ++ ('\n' :: tick3))) := by
    rw [string_data_append, string_data_append,
      show ("```\n" : String).data = tick3 ++ ['\n'] from by decide,
      show ("\n```" : String).data = '\n' :: tick3 from by decide]
    simp
  have hd3 : ("```json\n" ++ inner).data = tickJson ++ ('\n' :: inner.data) := by
    rw [string_data_append,
      show ("```json\n" : String).data = tickJson ++ ['\n'] from by decide]
    simp
  have hd4 : ("```\n" ++ inner).data = tick3 ++ ('\n' :: inner.data) := by
    rw [string_data_append,
      show ("```\n" : String).data = tick3 ++ ['\n'] from by decide]
    simp
  have hd5 : (inner ++ "\n```").data = inner.data ++ ('\n' :: tick3) := by
    rw [string_data_append,
      show ("\n```" : String).data = '\n' :: tick3 from by decide]
  refine ⟨?_, ?_, ?_, ?_, ?_⟩
  · intro hscan
    show (match regexScan ("```json\n" ++ inner ++ "\n```").data with
      | some m => String.mk m
      | none => String.mk (fallbackClean ("```json\n" ++ inner ++ "\n```").data)) = _
    rw [hscan, hd1]
    exact congrArg String.mk (fallbackClean_json_both inner.data h3)
  · intro hscan
    show (match regexScan ("```\n" ++ inner ++ "\n```").data with
      | some m => String.mk m
      | none => String.mk (fallbackClean ("```\n" ++ inner ++ "\n```").data)) = _
    rw [hscan, hd2]
    exact congrArg String.mk (fallbackClean_bare_both inner.data)
  · intro hscan
    show (match regexScan ("```json\n" ++ inner).data with
      | some m => String.mk m
      | none => String.mk (fallbackClean ("```json\n" ++ inner).data)) = _
    rw [hscan, hd3]
    exact congrArg String.mk (fallbackClean_json_leading inner.data h3 hE)
  · intro hscan
    show (match regexScan ("```\n" ++ inner).data with
      | some m => String.mk m
      | none => String.mk (fallbackClean ("```\n" ++ inner).data)) = _
    rw [hscan, hd4]
    exact congrArg String.mk (fallbackClean_bare_leading inner.data hE)
  · intro hscan
    show (match regexScan (inner ++ "\n```").data with
      | some m => String.mk m
      | none => String.mk (fallbackClean (inner ++ "\n```").data)) = _
    rw [hscan, hd5]
    exact congrArg String.mk (fallbackClean_trailing inner.data h3 hJ)

/-- Witness for C8: the content `hello world` under each fence form is
recovered trimmed. -/
theorem claim_C8_witness :
    cleanJson "```json\nhello world\n```" = "hello world" ∧
    cleanJson "```\nhello world\n```" = "hello world" ∧
    cleanJson "```json\nhello world" = "hello world" ∧
    cleanJson "```\nhello world" = "hello world" ∧
    cleanJson "hello world\n```" = "hello world" := by
  have h := claim_C8_fence_stripping "hello world" (by decide) (by decide) (by decide)
  exact ⟨h.1 (by decide), h.2.1 (by decide), h.2.2.1 (by decide),
    h.2.2.2.1 (by decide), h.2.2.2.2 (by decide)⟩
